import Mathlib

/-!
Verification of the monitor microscope-control application.

The development shallowly embeds the array arithmetic and the control flow
of `main_window.py`, `mainwindow.py` and `nktlaser.py`.  Images are flat
pixel lists of natural numbers (uint8/uint16 pixel values), mutable GUI
state becomes explicit state passing, and the camera is a function from
the relevant control parameter to the delivered frame.
-/

/-- A frame or background image: a flat list of pixel values. -/
abbrev Image := List Nat

/-! ## Frame display and background subtraction (`main_window.py`,
`mainwindow.py`) -/

/-- `cv2.subtract` on `uint8` arrays: elementwise subtraction saturating
at zero, which on pixel values is exactly truncated `Nat` subtraction. -/
def cv2Subtract (a b : Image) : Image :=
  List.zipWith (fun x y => x - y) a b

/-- The display portion of `Listener.frames_queued` in `mainwindow.py`:
when `subtract_background` is set and a background is present, the frame
buffer is replaced in place by `cv2.subtract(buffer_wrap, self.background)`
before being displayed; otherwise the frame is displayed unchanged. -/
def frames_queued_display (subtract_bg : Bool) (background : Option Image)
    (frame : Image) : Image :=
  if subtract_bg then
    match background with
    | some b => cv2Subtract frame b
    | none => frame
  else frame

/-- Modelled from the spec: `processing.background_subtracted` (module
`processing` is not under `src/`).  The spec defines background
subtraction as "subtracting a reference (no-signal) image from a live
frame", an elementwise signed difference. -/
def background_subtracted (frame bg : Image) : List Int :=
  List.zipWith (fun x y => (x : Int) - (y : Int)) frame bg

/-- Modelled from the spec: `processing.float_to_mono` (module
`processing` is not under `src/`): conversion of the signed difference
back to an 8-bit mono image, clamping into the pixel range. -/
def float_to_mono (d : List Int) : Image :=
  d.map (fun z => min z.toNat 255)

/-- `MainWindow.update_display` in `main_window.py`: returns the pair
(frame emitted on `new_processed_frame`, frame shown in the video view).
When `subtract_background` holds and a background is set, both are the
background-subtracted frame; otherwise both are the incoming frame. -/
def update_display (subtract_bg : Bool) (background : Option Image)
    (frame : Image) : Image × Image :=
  match subtract_bg, background with
  | true, some b =>
      let f := float_to_mono (background_subtracted frame b)
      (f, f)
  | _, _ => (frame, frame)

/-! ## Pending-photo handoff (`mainwindow.py`) -/

/-- The photo-request flags of `mainwindow.MainWindow`, guarded by
`shoot_photo_mutex` in the source. -/
structure PhotoState where
  shoot_photo : Bool
  shoot_bg : Bool
deriving DecidableEq

/-- `MainWindow.onShootPhoto`: sets the pending-photo flag. -/
def onShootPhoto (s : PhotoState) : PhotoState :=
  { s with shoot_photo := true }

/-- `MainWindow.onShootBG`: sets the pending-photo flag and the
background flag. -/
def onShootBG (s : PhotoState) : PhotoState :=
  { s with shoot_photo := true, shoot_bg := true }

/-- The photo-request portion of `Listener.frames_queued`: under the
photo mutex, if a photo is pending the flag is cleared and one
`GotPhotoEvent` is posted.  Returns the new state and the number of
events posted for this frame. -/
def frames_queued_photo (s : PhotoState) : PhotoState × Nat :=
  if s.shoot_photo then ({ s with shoot_photo := false }, 1) else (s, 0)

/-- Deliver `n` consecutive frames, summing the photo events posted. -/
def run_frames : Nat → PhotoState → PhotoState × Nat
  | 0, s => (s, 0)
  | n + 1, s =>
      let r1 := frames_queued_photo s
      let r2 := run_frames n r1.1
      (r2.1, r1.2 + r2.2)

/-! ## Laser port grabbing (`nktlaser.py`) -/

/-- Observable actions of `Laser.grab`, in the order performed. -/
inductive LaserAction where
  | openPortsCall
  | registerWrite (device reg value : Nat)
  | registerRead (device reg : Nat)
  | showWarning
  | emitChangedState (b : Bool)
deriving DecidableEq

/-- `Laser.set_emission`: one `registerWriteU8('COM4', 1, 0x30, emit)`. -/
def set_emission_actions (emitOn : Bool) : List LaserAction :=
  [.registerWrite 1 0x30 (if emitOn then 1 else 0)]

/-- `Laser.grab(warning)`: calls `openPorts`; on success (result 0)
unlocks the interlock, turns emission on, reads the wavelength limits and
emits `changedState(True)`; on failure sets `open = False`, shows a
warning dialog exactly when `warning` is true, and emits
`changedState(False)`.  Returns the final `open` flag and the action
trace. -/
def Laser.grab (openPortsResult : Int) (warning : Bool) :
    Bool × List LaserAction :=
  if openPortsResult = 0 then
    (true,
      [.openPortsCall, .registerWrite 1 0x32 1] ++ set_emission_actions true ++
        [.registerRead 16 0x34, .registerRead 16 0x33, .emitChangedState true])
  else
    (false,
      [.openPortsCall] ++ (if warning then [.showWarning] else []) ++
        [.emitChangedState false])

/-- Whether an action writes a laser device register. -/
def LaserAction.isRegisterWrite : LaserAction → Bool
  | .registerWrite _ _ _ => true
  | _ => false

/-- The laser device's register state: device id and register address to
stored value. -/
def RegState := Nat → Nat → Nat

/-- An all-zero register file, used to instantiate statements about
device state. -/
def regZero : RegState := fun _ _ => 0

/-- Effect of one action on the device registers: only register writes
change the device state. -/
def applyLaserAction (r : RegState) : LaserAction → RegState
  | .registerWrite d reg v =>
      fun d2 reg2 => if d2 = d ∧ reg2 = reg then v else r d2 reg2
  | _ => r

/-- Effect of an action trace on the device registers. -/
def applyLaserActions (acts : List LaserAction) (r : RegState) : RegState :=
  acts.foldl applyLaserAction r

/-! ## Stage return after sweeps (`main_window.py`) -/

/-- An XY stage position in microns. -/
structure XYPos where
  x : ℚ
  y : ℚ
deriving DecidableEq

/-- The grid offsets of `take_sequence`:
`np.array([[0,0],[1,0],[1,1],[0,1]]) * distance` with `distance = 4`. -/
def grid_positions : List XYPos :=
  [⟨0, 0⟩, ⟨4, 0⟩, ⟨4, 4⟩, ⟨0, 4⟩]

/-- The XY positions commanded by `MainWindow.take_sequence`, given the
anchor read from the stage at its start: each grid offset plus the
anchor, then the anchor again ("Return to base"). -/
def take_sequence_xy_commands (anchor : XYPos) : List XYPos :=
  grid_positions.map (fun p => ⟨p.x + anchor.x, p.y + anchor.y⟩) ++ [anchor]

/-- The Z positions commanded by `MainWindow.take_z_sweep`, given
`z_zero` read from the stage at its start: `z_zero + z` for each sweep
step `z`, then `z_zero` again. -/
def take_z_sweep_commands (z_zero : ℚ) (zs : List ℚ) : List ℚ :=
  zs.map (fun z => z_zero + z) ++ [z_zero]

/-- Executing a list of absolute positioning commands leaves the stage at
the last commanded position. -/
def run_stage_commands (cmds : List α) (p : α) : α :=
  cmds.foldl (fun _ c => c) p

/-! ## Acquisition busy flag (`main_window.py`) -/

/-- The acquisition bookkeeping of `main_window.MainWindow`: the
`aquiring` flag (guarded by `aquiring_mutex` in the source) and the
number of `AquisitionWorkerThread`s created and not yet finished. -/
structure AcqState where
  aquiring : Bool
  workers : Nat
deriving DecidableEq

/-- `AquisitionWorkerThread.__init__`: locks `aquiring_mutex`, sets
`aquiring = True`, unlocks, and starts a new worker thread. -/
def startAquisitionWorker (s : AcqState) : AcqState :=
  { aquiring := true, workers := s.workers + 1 }

/-- End of `AquisitionWorkerThread.run`/`finish_aquisition`: locks
`aquiring_mutex`, sets `aquiring = False`, unlocks; the worker thread
exits. -/
def finish_aquisition (s : AcqState) : AcqState :=
  { aquiring := false, workers := s.workers - 1 }

/-- `MainWindow.snap_background`: in grid mode, creates and starts an
`AquisitionWorkerThread` only when `aquiring` is not set; otherwise (or
outside grid mode, which uses a single-shot signal connection) no worker
is started. -/
def snap_background (grid : Bool) (s : AcqState) : AcqState :=
  if grid then (if s.aquiring then s else startAquisitionWorker s) else s

/-- `MainWindow.snap_processed_photo`: same guard as
`snap_background`. -/
def snap_processed_photo (grid : Bool) (s : AcqState) : AcqState :=
  if grid then (if s.aquiring then s else startAquisitionWorker s) else s

/-- `MainWindow.laser_sweep`: starts a worker only when the sweep dialog
is accepted and `aquiring` is not set. -/
def laser_sweep (dialogAccepted : Bool) (s : AcqState) : AcqState :=
  if dialogAccepted ∧ ¬s.aquiring then startAquisitionWorker s else s

/-- `MainWindow.z_sweep`: starts a worker only when the sweep dialog is
accepted and `aquiring` is not set. -/
def z_sweep (dialogAccepted : Bool) (s : AcqState) : AcqState :=
  if dialogAccepted ∧ ¬s.aquiring then startAquisitionWorker s else s

/-- Acquisition states reachable from the initial state (`aquiring =
False`, no worker) by the four acquisition-starting actions and by a
worker's `run` completing (which requires a live worker). -/
inductive AcqReach : AcqState → Prop where
  | init : AcqReach ⟨false, 0⟩
  | snapBG {s} (grid : Bool) : AcqReach s → AcqReach (snap_background grid s)
  | snapPhoto {s} (grid : Bool) :
      AcqReach s → AcqReach (snap_processed_photo grid s)
  | laserSweep {s} (dialogAccepted : Bool) :
      AcqReach s → AcqReach (laser_sweep dialogAccepted s)
  | zSweep {s} (dialogAccepted : Bool) :
      AcqReach s → AcqReach (z_sweep dialogAccepted s)
  | finish {s} : AcqReach s → 1 ≤ s.workers → AcqReach (finish_aquisition s)

/-! ## Laser sweep (`main_window.py`) -/

/-- `numpy.linspace(start, stop, num)`: `num` evenly spaced samples from
`start` to `stop` inclusive. -/
def linspace (start stop : ℚ) (num : Nat) : List ℚ :=
  if num ≤ 1 then (List.range num).map (fun _ => start)
  else (List.range num).map
    (fun i : ℕ => start + (stop - start) * (i : ℚ) / ((num : ℚ) - 1))

/-- The sweep-relevant state of `take_laser_sweep`: the laser's current
wavelength and the accumulated `laser_data_raw` list. -/
structure LaserSweepState where
  wavelen : ℚ
  laser_data_raw : List Image

/-- One iteration of the `take_laser_sweep` loop in non-grid mode:
`laser.set_wavelen(wavelen)`, then wait for a frame; `store_laser_data`
appends the frame the camera delivers at the current wavelength. -/
def laser_sweep_step (camera : ℚ → Image) (s : LaserSweepState) (w : ℚ) :
    LaserSweepState :=
  let s1 : LaserSweepState := { s with wavelen := w }
  { s1 with laser_data_raw := s1.laser_data_raw ++ [camera s1.wavelen] }

/-- `MainWindow.take_laser_sweep` in non-grid mode: tunes the laser to
the first wavelength, starts from an empty `laser_data_raw` list, and
iterates `laser_sweep_step` over the sweep wavelengths. -/
def take_laser_sweep (camera : ℚ → Image) (w0 : ℚ) (wavelens : List ℚ) :
    LaserSweepState :=
  let s0 : LaserSweepState := { wavelen := wavelens.headD w0, laser_data_raw := [] }
  wavelens.foldl (laser_sweep_step camera) s0

/-! ## Video saving (`main_window.py`) -/

/-- The dtype of the recorded frame stack. -/
inductive PixelType where
  | u8
  | u16
deriving DecidableEq

/-- The output filter selected in the `stop_video` save dialog. -/
inductive VideoFilter where
  | tifFilter
  | aviFilter
deriving DecidableEq

/-- `(photo/256).astype(np.uint8)` on `uint16` pixel data: float division
then truncation, i.e. integer division by 256. -/
def convert16to8 (p : Image) : Image :=
  p.map (fun x => x / 256)

/-- The frames written by `MainWindow.stop_video` once a file is chosen.
TIFF branch: `photos = (photos/256).astype(np.uint8)` is computed when
the dtype is `uint16`, but the write call is
`tiff.imwrite(..., np.array(self.photos))`, so the original frames are
written.  AVI branch: each `uint16` frame is written as
`(photo/256).astype(np.uint8)` and each `uint8` frame unchanged. -/
def stop_video_written (filter : VideoFilter) (dtype : PixelType)
    (photos : List Image) : List Image :=
  match filter with
  | .tifFilter =>
      let _photos8 := if dtype = PixelType.u16 then photos.map convert16to8 else photos
      photos
  | .aviFilter =>
      photos.map (fun p => if dtype = PixelType.u16 then convert16to8 p else p)

/-! ## ROI and background shape (`main_window.py`) -/

/-- A camera region of interest: width, height and sensor offsets. -/
structure ROI where
  width : Nat
  height : Nat
  offset_x : Nat
  offset_y : Nat
deriving DecidableEq

/-- Number of pixels in a frame delivered under a given ROI. -/
def frameShape (r : ROI) : Nat :=
  r.width * r.height

/-- The display-related state of `main_window.MainWindow`: current camera
ROI, stored background and subtraction flag. -/
structure DisplayState where
  roi : ROI
  background : Option Image
  subtract_background : Bool

/-- `MainWindow.set_background` with a frame delivered by the camera (or
the common background of photos just taken): stores it as the
background. -/
def set_background (s : DisplayState) (img : Image) : DisplayState :=
  { s with background := some img }

/-- `MainWindow.update_roi`: reprograms the camera width, height and
offsets, disables background subtraction, and clears the stored
background. -/
def update_roi (s : DisplayState) (r : ROI) : DisplayState :=
  { s with roi := r, subtract_background := false, background := none }

/-- `MainWindow.toggle_background_subtraction`. -/
def toggle_background_subtraction (s : DisplayState) : DisplayState :=
  { s with subtract_background := ¬s.subtract_background }

/-- Display states reachable from a fresh window (no background, no
subtraction): backgrounds are only installed from frames whose pixel
count matches the current ROI, since they come from the camera stream
configured with that ROI. -/
inductive DisplayReach (r0 : ROI) : DisplayState → Prop where
  | init : DisplayReach r0 ⟨r0, none, false⟩
  | setBG {s} (img : Image) (h : img.length = frameShape s.roi) :
      DisplayReach r0 s → DisplayReach r0 (set_background s img)
  | updateROI {s} (r : ROI) : DisplayReach r0 s → DisplayReach r0 (update_roi s r)
  | toggleSub {s} :
      DisplayReach r0 s → DisplayReach r0 (toggle_background_subtraction s)

/-! ## Background selection and weighted averaging (`mainwindow.py`) -/

/-- `np.subtract(x, y, dtype=np.int16)` on single pixels: the signed
difference wrapped into the `int16` range. -/
def int16ofInt (z : Int) : Int :=
  (z + 32768) % 65536 - 32768

/-- The per-pair weight array of `difference_weighted_average`:
`0.01 + np.where(diff < 10, 1, 0) + np.where(diff < 20, 0.5, 0)` where
`diff = np.abs(np.subtract(a, b, dtype=np.int16))`. -/
def pairWeight (a b : Image) : List ℚ :=
  List.zipWith
    (fun (x : Nat) (y : Nat) =>
      let diff := (int16ofInt ((x : Int) - (y : Int))).natAbs
      (1 / 100 : ℚ) + (if diff < 10 then (1 : ℚ) else 0) +
        (if diff < 20 then (1 / 2 : ℚ) else 0))
    a b

/-- Elementwise addition of weight arrays. -/
def listAdd (a b : List ℚ) : List ℚ :=
  List.zipWith (· + ·) a b

/-- `np.zeros_like` of one image, as a weight array. -/
def zerosLike (b : Image) : List ℚ :=
  b.map (fun _ => 0)

/-- One step of the double loop of `difference_weighted_average`: when
`i < j`, the pair weight of images `i` and `j` is added to both
`output_weights[i]` and `output_weights[j]`. -/
def dwaPairUpdate (bgs : List Image) (w : Nat → List ℚ) (i j : Nat) :
    Nat → List ℚ :=
  if i < j then
    let pw := pairWeight (bgs.getD i []) (bgs.getD j [])
    let w1 := Function.update w i (listAdd (w i) pw)
    Function.update w1 j (listAdd (w1 j) pw)
  else w

/-- The inner `for j in range(len(backgrounds))` loop for a fixed `i`. -/
def dwaInner (bgs : List Image) (i : Nat) (w : Nat → List ℚ) :
    Nat → List ℚ :=
  (List.range bgs.length).foldl (fun w j => dwaPairUpdate bgs w i j) w

/-- `MainWindow.difference_weighted_average`: starting from
`np.zeros_like(backgrounds)`, runs the double loop and returns one weight
array per input image. -/
def difference_weighted_average (bgs : List Image) : List (List ℚ) :=
  let w0 : Nat → List ℚ := fun i => zerosLike (bgs.getD i [])
  let wf := (List.range bgs.length).foldl (fun w i => dwaInner bgs i w) w0
  (List.range bgs.length).map wf

/-- The weight array the claim describes for image `k`: the elementwise
sum, over every other image `j`, of the pair weight of images `k` and
`j`. -/
def rowWeightSpec (bgs : List Image) (k : Nat) : List ℚ :=
  (List.range bgs.length).foldl
    (fun acc j =>
      if j ≠ k then listAdd acc (pairWeight (bgs.getD k []) (bgs.getD j []))
      else acc)
    (zerosLike (bgs.getD k []))

/-- Short form of the pair weight between images `i` and `j` of the
list. -/
def pwB (bgs : List Image) (i j : Nat) : List ℚ :=
  pairWeight (bgs.getD i []) (bgs.getD j [])

/-- An image reinterpreted as exact rational pixel values, for comparing
the stored background with the exact weighted average. -/
def imageToRat (a : Image) : List ℚ :=
  a.map (fun x => (x : ℚ))

/-- Numerator of `np.average(bgs, axis=0, weights=ws)` at pixel `p`:
the weighted sum of the pixel over the images. -/
def columnDot (bgs : List Image) (ws : List (List ℚ)) (p : Nat) : ℚ :=
  (List.zip bgs ws).foldl
    (fun acc bw => acc + bw.2.getD p 0 * (bw.1.getD p 0 : ℚ)) 0

/-- Denominator of `np.average(bgs, axis=0, weights=ws)` at pixel `p`:
the sum of the weights. -/
def columnWeightSum (ws : List (List ℚ)) (p : Nat) : ℚ :=
  ws.foldl (fun acc w => acc + w.getD p 0) 0

/-- `np.average(bgs, axis=0, weights=ws)`: the elementwise weighted
average of the images. -/
def np_average (bgs : List Image) (ws : List (List ℚ)) : List ℚ :=
  (List.range (bgs.headD []).length).map
    (fun p => columnDot bgs ws p / columnWeightSum ws p)

/-- `background.astype(backgrounds[0].dtype)` applied to the average:
float-to-integer conversion truncates each (non-negative) pixel. -/
def astype_trunc (a : List ℚ) : Image :=
  a.map (fun q => (⌊q⌋).toNat)

/-- Outcome of `MainWindow.select_background` once files are chosen. -/
inductive SelectBackgroundResult where
  | assigned (bg : Image)
  | returnedZero
  | indexError
deriving DecidableEq

/-- Whether `select_background` reassigned `self.background`. -/
def SelectBackgroundResult.assignsBackground : SelectBackgroundResult → Bool
  | .assigned _ => true
  | _ => false

/-- `MainWindow.select_background` on the list of loaded background
images: with two or more images, `self.background` is set to the
weighted average under `difference_weighted_average` cast back to the
images' integer dtype; with zero images the `backgrounds[0]` lookup
raises `IndexError` before any assignment; with exactly one image the
method returns `0` without assigning. -/
def select_background (bgs : List Image) : SelectBackgroundResult :=
  if 1 < bgs.length then
    .assigned (astype_trunc (np_average bgs (difference_weighted_average bgs)))
  else if bgs.length = 0 then
    .indexError
  else
    .returnedZero

/-- A trace performs no register writes. -/
def noRegisterWrites (l : List LaserAction) : Bool :=
  l.all (fun a => !a.isRegisterWrite)

/-! # Helper lemmas -/

/-- Frames delivered while no photo is pending post no photo events and
leave the request state unchanged. -/
theorem run_frames_no_pending (n : Nat) (s : PhotoState)
    (h : s.shoot_photo = false) : run_frames n s = (s, 0) := by
  induction n with
  | zero => rfl
  | succ n ih => simp [run_frames, frames_queued_photo, h, ih]

/-- The acquisition invariant: a reachable state has exactly one live
worker when `aquiring` is set and none otherwise. -/
theorem acq_invariant {s : AcqState} (h : AcqReach s) :
    s.workers = (if s.aquiring then 1 else 0) := by
  induction h with
  | init => rfl
  | snapBG grid _ ih =>
      simp only [snap_background, startAquisitionWorker]
      split_ifs with h1 h2 <;> simp_all
  | snapPhoto grid _ ih =>
      simp only [snap_processed_photo, startAquisitionWorker]
      split_ifs with h1 h2 <;> simp_all
  | laserSweep d _ ih =>
      simp only [laser_sweep, startAquisitionWorker]
      split_ifs with h1 <;> simp_all
  | zSweep d _ ih =>
      simp only [z_sweep, startAquisitionWorker]
      split_ifs with h1 <;> simp_all
  | @finish s _ hw ih =>
      show s.workers - 1 = if false = true then 1 else 0
      rw [if_neg (by decide)]
      split_ifs at ih <;> omega

/-- The laser-sweep loop appends one frame per wavelength, in sweep
order. -/
theorem laser_sweep_loop_data (camera : ℚ → Image) (s0 : LaserSweepState)
    (ws : List ℚ) :
    (ws.foldl (laser_sweep_step camera) s0).laser_data_raw
      = s0.laser_data_raw ++ ws.map camera := by
  induction ws generalizing s0 with
  | nil => simp
  | cons w ws ih => simp [laser_sweep_step, ih]

/-- `numpy.linspace` returns exactly `num` samples. -/
theorem linspace_length (start stop : ℚ) (num : Nat) :
    (linspace start stop num).length = num := by
  unfold linspace
  split <;> rw [List.length_map, List.length_range]

theorem int16_natAbs_comm (x y : Int) :
    (int16ofInt (x - y)).natAbs = (int16ofInt (y - x)).natAbs := by
  unfold int16ofInt
  omega

theorem pairWeight_comm (a b : Image) : pairWeight a b = pairWeight b a := by
  induction a generalizing b with
  | nil => cases b <;> rfl
  | cons x a ih =>
      cases b with
      | nil => rfl
      | cons y b =>
          simp only [pairWeight, List.zipWith_cons_cons] at ih ⊢
          rw [int16_natAbs_comm]
          rw [ih]

theorem pwB_comm (bgs : List Image) (i j : Nat) :
    pwB bgs i j = pwB bgs j i :=
  pairWeight_comm _ _

theorem foldl_skip {α β : Type _} (f : β → α → β) (L : List α) (b : β)
    (h : ∀ a ∈ L, ∀ x, f x a = x) : L.foldl f b = b := by
  induction L generalizing b with
  | nil => rfl
  | cons a L ih =>
      rw [List.foldl_cons, h a (by simp)]
      exact ih b (fun a ha x => h a (by simp [ha]) x)

theorem foldl_range_single_hit {β : Type _} (g : β → β) (k n : Nat)
    (hk : k < n) (b : β) :
    (List.range n).foldl (fun acc j => if j = k then g acc else acc) b
      = g b := by
  obtain ⟨m, rfl⟩ : ∃ m, n = k + 1 + m := ⟨n - (k + 1), by omega⟩
  rw [show k + 1 + m = (k + 1) + m from rfl, List.range_add,
    List.foldl_append, List.range_succ, List.foldl_append]
  rw [foldl_skip _ (List.range k) b
    (fun a ha x => if_neg (Nat.ne_of_lt (List.mem_range.mp ha)))]
  rw [List.foldl_cons, if_pos rfl, List.foldl_nil]
  exact foldl_skip _ _ _
    (fun a ha x => by
      obtain ⟨c, hc, rfl⟩ := List.mem_map.mp ha
      exact if_neg (by omega))

theorem dwaPairUpdate_apply (bgs : List Image) (w : Nat → List ℚ)
    (i j k : Nat) :
    dwaPairUpdate bgs w i j k
      = if i < j ∧ (k = i ∨ k = j) then listAdd (w k) (pwB bgs i j)
        else w k := by
  by_cases hij : i < j
  · have hji : j ≠ i := by omega
    simp only [dwaPairUpdate, if_pos hij, Function.update_apply, pwB]
    by_cases hkj : k = j
    · subst hkj
      simp [hji, hij]
    · by_cases hki : k = i
      · subst hki
        simp [hkj, hij]
      · simp [hkj, hki, hij]
  · simp [dwaPairUpdate, hij]

theorem dwaInnerList_apply (bgs : List Image) (i : Nat) (L : List Nat)
    (w : Nat → List ℚ) (k : Nat) :
    (L.foldl (fun w j => dwaPairUpdate bgs w i j) w) k
      = L.foldl
          (fun acc j => if i < j ∧ (k = i ∨ k = j)
            then listAdd acc (pwB bgs i j) else acc)
          (w k) := by
  induction L generalizing w with
  | nil => rfl
  | cons j L ih =>
      simp only [List.foldl_cons]
      rw [ih, dwaPairUpdate_apply]

theorem dwaOuterList_apply (bgs : List Image) (L : List Nat)
    (w : Nat → List ℚ) (k : Nat) :
    (L.foldl (fun w i => dwaInner bgs i w) w) k
      = L.foldl
          (fun acc i => (List.range bgs.length).foldl
            (fun acc2 j => if i < j ∧ (k = i ∨ k = j)
              then listAdd acc2 (pwB bgs i j) else acc2) acc)
          (w k) := by
  induction L generalizing w with
  | nil => rfl
  | cons i L ih =>
      simp only [List.foldl_cons]
      rw [ih]
      congr 1
      exact dwaInnerList_apply bgs i (List.range bgs.length) w k

theorem innerFold_low (bgs : List Image) (n i k : Nat) (hik : i < k)
    (hk : k < n) (acc : List ℚ) :
    (List.range n).foldl
      (fun acc2 j => if i < j ∧ (k = i ∨ k = j)
        then listAdd acc2 (pwB bgs i j) else acc2) acc
      = listAdd acc (pwB bgs i k) := by
  have hext : (List.range n).foldl
      (fun acc2 j => if i < j ∧ (k = i ∨ k = j)
        then listAdd acc2 (pwB bgs i j) else acc2) acc
      = (List.range n).foldl
          (fun a j => if j = k then listAdd a (pwB bgs i k) else a) acc := by
    apply List.foldl_ext
    intro a j hj
    show (if i < j ∧ (k = i ∨ k = j) then listAdd a (pwB bgs i j) else a)
      = (if j = k then listAdd a (pwB bgs i k) else a)
    by_cases hjk : j = k
    · subst hjk
      rw [if_pos ⟨hik, Or.inr rfl⟩, if_pos rfl]
    · rw [if_neg, if_neg hjk]
      rintro ⟨h1, h2 | h3⟩
      · omega
      · exact hjk h3.symm
  rw [hext]
  exact foldl_range_single_hit (fun a => listAdd a (pwB bgs i k)) k n hk acc

theorem innerFold_diag (bgs : List Image) (n k m : Nat)
    (hn : n = k + 1 + m) (acc : List ℚ) :
    (List.range n).foldl
      (fun acc2 j => if k < j ∧ (k = k ∨ k = j)
        then listAdd acc2 (pwB bgs k j) else acc2) acc
      = (List.range m).foldl
          (fun acc2 x => listAdd acc2 (pwB bgs k (k + 1 + x))) acc := by
  subst hn
  have hext : (List.range (k + 1 + m)).foldl
      (fun acc2 j => if k < j ∧ (k = k ∨ k = j)
        then listAdd acc2 (pwB bgs k j) else acc2) acc
      = (List.range (k + 1 + m)).foldl
          (fun a j => if k < j then listAdd a (pwB bgs k j) else a) acc := by
    apply List.foldl_ext
    intro a j hj
    show (if k < j ∧ (k = k ∨ k = j) then listAdd a (pwB bgs k j) else a)
      = (if k < j then listAdd a (pwB bgs k j) else a)
    by_cases hkj : k < j
    · rw [if_pos ⟨hkj, Or.inl rfl⟩, if_pos hkj]
    · rw [if_neg (fun h => hkj h.1), if_neg hkj]
  rw [hext, show k + 1 + m = (k + 1) + m from rfl, List.range_add,
    List.foldl_append, List.range_succ, List.foldl_append]
  rw [foldl_skip _ (List.range k) acc (fun a ha x => by
    show (if k < a then listAdd x (pwB bgs k a) else x) = x
    rw [if_neg (by have := List.mem_range.mp ha; omega)])]
  rw [List.foldl_cons, if_neg (by omega), List.foldl_nil, List.foldl_map]
  apply List.foldl_ext
  intro a x hx
  show (if k < (k + 1) + x then listAdd a (pwB bgs k ((k + 1) + x)) else a)
    = listAdd a (pwB bgs k (k + 1 + x))
  rw [if_pos (by omega)]

theorem innerFold_high (bgs : List Image) (n i k : Nat) (hki : k < i)
    (acc : List ℚ) :
    (List.range n).foldl
      (fun acc2 j => if i < j ∧ (k = i ∨ k = j)
        then listAdd acc2 (pwB bgs i j) else acc2) acc = acc := by
  apply foldl_skip
  intro j hj x
  show (if i < j ∧ (k = i ∨ k = j) then listAdd x (pwB bgs i j) else x) = x
  rw [if_neg]
  rintro ⟨h1, h2 | h3⟩ <;> omega

theorem outer_eval (bgs : List Image) (k m : Nat) (z : List ℚ) :
    (List.range (k + 1 + m)).foldl
      (fun acc i =>
        if i < k then listAdd acc (pwB bgs i k)
        else if i = k then
          (List.range m).foldl
            (fun acc2 x => listAdd acc2 (pwB bgs k (k + 1 + x))) acc
        else acc) z
      = (List.range m).foldl
          (fun acc2 x => listAdd acc2 (pwB bgs k (k + 1 + x)))
          ((List.range k).foldl
            (fun acc i => listAdd acc (pwB bgs i k)) z) := by
  rw [show k + 1 + m = (k + 1) + m from rfl, List.range_add,
    List.foldl_append, List.range_succ, List.foldl_append, List.foldl_map]
  have hlow : (List.range k).foldl
      (fun acc i =>
        if i < k then listAdd acc (pwB bgs i k)
        else if i = k then
          (List.range m).foldl
            (fun acc2 x => listAdd acc2 (pwB bgs k (k + 1 + x))) acc
        else acc) z
      = (List.range k).foldl (fun acc i => listAdd acc (pwB bgs i k)) z := by
    apply List.foldl_ext
    intro a i hi
    show (if i < k then listAdd a (pwB bgs i k)
        else if i = k then
          (List.range m).foldl
            (fun acc2 x => listAdd acc2 (pwB bgs k (k + 1 + x))) a
        else a)
      = listAdd a (pwB bgs i k)
    rw [if_pos (List.mem_range.mp hi)]
  rw [List.foldl_cons, List.foldl_nil, hlow]
  rw [if_neg (by omega), if_pos rfl]
  exact foldl_skip _ _ _ (fun a ha x => by
    show (if (k + 1) + a < k then listAdd x (pwB bgs ((k + 1) + a) k)
        else if (k + 1) + a = k then
          (List.range m).foldl
            (fun acc2 x2 => listAdd acc2 (pwB bgs k (k + 1 + x2))) x
        else x) = x
    rw [if_neg (by omega), if_neg (by omega)])

theorem spec_eval (bgs : List Image) (k m : Nat) (z : List ℚ) :
    (List.range (k + 1 + m)).foldl
      (fun acc j => if j ≠ k
        then listAdd acc (pairWeight (bgs.getD k []) (bgs.getD j []))
        else acc) z
      = (List.range m).foldl
          (fun acc2 x => listAdd acc2 (pwB bgs k (k + 1 + x)))
          ((List.range k).foldl
            (fun acc j => listAdd acc (pwB bgs k j)) z) := by
  rw [show k + 1 + m = (k + 1) + m from rfl, List.range_add,
    List.foldl_append, List.range_succ, List.foldl_append, List.foldl_map]
  have hlow : (List.range k).foldl
      (fun acc j => if j ≠ k
        then listAdd acc (pairWeight (bgs.getD k []) (bgs.getD j []))
        else acc) z
      = (List.range k).foldl (fun acc j => listAdd acc (pwB bgs k j)) z := by
    apply List.foldl_ext
    intro a j hj
    show (if j ≠ k then listAdd a (pairWeight (bgs.getD k []) (bgs.getD j []))
        else a)
      = listAdd a (pwB bgs k j)
    rw [if_pos (by have := List.mem_range.mp hj; omega)]
    rfl
  rw [List.foldl_cons, List.foldl_nil, hlow]
  rw [if_neg (by omega)]
  apply List.foldl_ext
  intro a x hx
  show (if (k + 1) + x ≠ k
      then listAdd a (pairWeight (bgs.getD k []) (bgs.getD ((k + 1) + x) []))
      else a)
    = listAdd a (pwB bgs k (k + 1 + x))
  rw [if_pos (by omega)]
  rfl

theorem dwa_row (bgs : List Image) (k : Nat) (hk : k < bgs.length) :
    (difference_weighted_average bgs).getD k [] = rowWeightSpec bgs k := by
  obtain ⟨m, hm⟩ : ∃ m, bgs.length = k + 1 + m :=
    ⟨bgs.length - (k + 1), by omega⟩
  have hpoint : (difference_weighted_average bgs).getD k []
      = (List.range bgs.length).foldl
          (fun acc i => (List.range bgs.length).foldl
            (fun acc2 j => if i < j ∧ (k = i ∨ k = j)
              then listAdd acc2 (pwB bgs i j) else acc2) acc)
          (zerosLike (bgs.getD k [])) := by
    simp only [difference_weighted_average]
    rw [List.getD_eq_getElem _ _ (by simpa using hk), List.getElem_map,
      List.getElem_range]
    exact dwaOuterList_apply bgs (List.range bgs.length) _ k
  have hsteps : (List.range bgs.length).foldl
      (fun acc i => (List.range bgs.length).foldl
        (fun acc2 j => if i < j ∧ (k = i ∨ k = j)
          then listAdd acc2 (pwB bgs i j) else acc2) acc)
      (zerosLike (bgs.getD k []))
      = (List.range bgs.length).foldl
          (fun acc i =>
            if i < k then listAdd acc (pwB bgs i k)
            else if i = k then
              (List.range m).foldl
                (fun acc2 x => listAdd acc2 (pwB bgs k (k + 1 + x))) acc
            else acc)
          (zerosLike (bgs.getD k [])) := by
    apply List.foldl_ext
    intro acc i hi
    show (List.range bgs.length).foldl
        (fun acc2 j => if i < j ∧ (k = i ∨ k = j)
          then listAdd acc2 (pwB bgs i j) else acc2) acc
      = (if i < k then listAdd acc (pwB bgs i k)
        else if i = k then
          (List.range m).foldl
            (fun acc2 x => listAdd acc2 (pwB bgs k (k + 1 + x))) acc
        else acc)
    rcases Nat.lt_trichotomy i k with hik | rfl | hki
    · rw [innerFold_low bgs bgs.length i k hik hk acc, if_pos hik]
    · rw [innerFold_diag bgs bgs.length i m hm acc, if_neg (by omega),
        if_pos rfl]
    · rw [innerFold_high bgs bgs.length i k hki acc, if_neg (by omega),
        if_neg (by omega)]
  rw [hpoint, hsteps, hm, outer_eval]
  simp only [rowWeightSpec]
  rw [hm, spec_eval]
  congr 1
  apply List.foldl_ext
  intro a i hi
  show listAdd a (pwB bgs i k) = listAdd a (pwB bgs k i)
  rw [pwB_comm]

/-! # Claim theorems -/

/-- C1: for every delivered frame, if background subtraction is enabled
and a background is set, the processing step emits and displays the
background-subtracted frame (live frame minus stored background); if
subtraction is disabled or no background is set, the frame is emitted
and displayed unchanged.  Covers `update_display` in `main_window.py`
(emitted frame = displayed frame) and the display path of
`frames_queued` in `mainwindow.py`, where the per-pixel `uint8` minus is
`cv2.subtract`'s zero-saturating subtraction. -/
theorem C1_update_display_background_subtraction (b frame : Image)
    (subtract_bg : Bool) (background : Option Image) :
    (update_display subtract_bg background frame).1
        = (update_display subtract_bg background frame).2
    ∧ update_display true (some b) frame
        = (float_to_mono (background_subtracted frame b),
           float_to_mono (background_subtracted frame b))
    ∧ update_display false background frame = (frame, frame)
    ∧ update_display subtract_bg none frame = (frame, frame)
    ∧ frames_queued_display true (some b) frame
        = List.zipWith (fun x y => x - y) frame b
    ∧ frames_queued_display false background frame = frame
    ∧ frames_queued_display subtract_bg none frame = frame := by
  cases subtract_bg <;> cases background <;>
    exact ⟨rfl, rfl, rfl, rfl, rfl, rfl, rfl⟩

/-- C3: after `onShootPhoto` (or `onShootBG`) sets the pending-photo
flag, the next `frames_queued` clears the flag and posts exactly one
`GotPhotoEvent`; frames after that post no photo event until a new
request, so any run of `n + 1` frames after a request posts exactly one
event in total. -/
theorem C3_one_photo_event_per_request (n : Nat) (s : PhotoState) :
    (frames_queued_photo (onShootPhoto s)).1.shoot_photo = false
    ∧ (frames_queued_photo (onShootPhoto s)).2 = 1
    ∧ (run_frames n (frames_queued_photo (onShootPhoto s)).1).2 = 0
    ∧ (run_frames (n + 1) (onShootPhoto s)).2 = 1
    ∧ (frames_queued_photo (onShootBG s)).1.shoot_photo = false
    ∧ (run_frames (n + 1) (onShootBG s)).2 = 1 := by
  refine ⟨rfl, rfl, ?_, ?_, rfl, ?_⟩ <;>
    simp [run_frames, frames_queued_photo, onShootPhoto, onShootBG,
      run_frames_no_pending]

/-- C4: at most one acquisition is in flight at a time: in every
reachable acquisition state the number of live workers is one exactly
when `aquiring` is set, and in a state with `aquiring` true none of
`snap_background`, `snap_processed_photo`, `laser_sweep` or `z_sweep`
starts a second worker (each leaves the state unchanged). -/
theorem C4_single_acquisition_in_flight (s : AcqState) (g d : Bool)
    (h : AcqReach s) :
    s.workers = (if s.aquiring then 1 else 0)
    ∧ (s.aquiring = true →
        snap_background g s = s ∧ snap_processed_photo g s = s
          ∧ laser_sweep d s = s ∧ z_sweep d s = s) := by
  refine ⟨acq_invariant h, fun ha => ⟨?_, ?_, ?_, ?_⟩⟩ <;>
    simp [snap_background, snap_processed_photo, laser_sweep, z_sweep, ha]

/-- C4 witness: the state after starting a grid background acquisition
from the initial state is reachable and satisfies the property. -/
theorem C4_single_acquisition_in_flight_witness :
    AcqReach ⟨true, 1⟩
    ∧ ((⟨true, 1⟩ : AcqState).workers
          = (if (⟨true, 1⟩ : AcqState).aquiring then 1 else 0)
      ∧ ((⟨true, 1⟩ : AcqState).aquiring = true →
          snap_background true ⟨true, 1⟩ = ⟨true, 1⟩
            ∧ snap_processed_photo true ⟨true, 1⟩ = ⟨true, 1⟩
            ∧ laser_sweep true ⟨true, 1⟩ = ⟨true, 1⟩
            ∧ z_sweep true ⟨true, 1⟩ = ⟨true, 1⟩)) := by
  have hreach : AcqReach ⟨true, 1⟩ := AcqReach.snapBG true AcqReach.init
  exact ⟨hreach, C4_single_acquisition_in_flight ⟨true, 1⟩ true true hreach⟩

/-- C5: a laser sweep over `numpy.linspace(start, stop, num)` in
non-grid mode stores exactly one image per wavelength step, in sweep
order: the raw data list is the image the camera delivers at each
successive wavelength, and its length is `num`. -/
theorem C5_laser_sweep_one_image_per_step (camera : ℚ → Image)
    (w0 start stop : ℚ) (num : Nat) :
    (take_laser_sweep camera w0 (linspace start stop num)).laser_data_raw.length
        = num
    ∧ (take_laser_sweep camera w0 (linspace start stop num)).laser_data_raw
        = (linspace start stop num).map camera := by
  constructor
  · simp [take_laser_sweep, laser_sweep_loop_data, linspace_length]
  · simp [take_laser_sweep, laser_sweep_loop_data]

/-- C6: the claim that `stop_video` converts `uint16` frames to 8 bits
before writing fails for the multi-page TIFF branch: the converted stack
is computed but the write call uses the original `self.photos`, so the
raw `uint16` data is written; the AVI branch does write the converted
frames. -/
theorem C6_stop_video_tif_writes_unconverted :
    stop_video_written .tifFilter .u16 [[256]] = [[256]]
    ∧ stop_video_written .aviFilter .u16 [[256]] = [[1]]
    ∧ convert16to8 [256] = [1]
    ∧ stop_video_written .tifFilter .u16 [[256]] ≠ [convert16to8 [256]] := by
  decide

/-- C7: when `openPorts` fails (nonzero result), `Laser.grab` sets
`open` to `False`, opens the port exactly once (no retry), performs no
laser register writes (so the device registers are unchanged), shows the
warning dialog exactly when `warning` is true, and emits
`changedState(False)`. -/
theorem C7_laser_grab_port_failure (openPortsResult : Int) (warning : Bool)
    (r : RegState) (h : openPortsResult ≠ 0) :
    (Laser.grab openPortsResult warning).1 = false
    ∧ (Laser.grab openPortsResult warning).2.count .openPortsCall = 1
    ∧ noRegisterWrites (Laser.grab openPortsResult warning).2 = true
    ∧ (Laser.grab openPortsResult warning).2.contains .showWarning = warning
    ∧ (Laser.grab openPortsResult warning).2.contains (.emitChangedState false)
        = true
    ∧ applyLaserActions (Laser.grab openPortsResult warning).2 r = r := by
  have hg : Laser.grab openPortsResult warning
      = (false, [.openPortsCall] ++ (if warning then [.showWarning] else [])
          ++ [.emitChangedState false]) := by
    simp [Laser.grab, h]
  rw [hg]
  cases warning <;>
    exact ⟨rfl, by decide, by decide, by decide, by decide, rfl⟩

/-- C7 witness: the failure path at `openPorts` result 1 with the
warning enabled. -/
theorem C7_laser_grab_port_failure_witness :
    (1 : Int) ≠ 0
    ∧ ((Laser.grab 1 true).1 = false
      ∧ (Laser.grab 1 true).2.count .openPortsCall = 1
      ∧ noRegisterWrites (Laser.grab 1 true).2 = true
      ∧ (Laser.grab 1 true).2.contains .showWarning = true
      ∧ (Laser.grab 1 true).2.contains (.emitChangedState false) = true
      ∧ applyLaserActions (Laser.grab 1 true).2 regZero = regZero) :=
  ⟨by decide, C7_laser_grab_port_failure 1 true regZero (by decide)⟩

/-- C9: sweeps leave the stage where they found it: the XY positions
commanded by `take_sequence` end at the anchor read at its start, and
the Z positions commanded by `take_z_sweep` end at the `z_zero` read at
its start, so executing either command sequence returns the stage to its
initial position. -/
theorem C9_sweeps_return_stage (p0 : XYPos) (z0 : ℚ) (zs : List ℚ) :
    run_stage_commands (take_sequence_xy_commands p0) p0 = p0
    ∧ run_stage_commands (take_z_sweep_commands z0 zs) z0 = z0 := by
  constructor <;>
    simp [run_stage_commands, take_sequence_xy_commands,
      take_z_sweep_commands, List.foldl_append]

/-- C10: if exactly one background file is selected, `select_background`
returns 0 and leaves `self.background` unassigned; with at most one file
no assignment happens at all (zero files fail on the `backgrounds[0]`
lookup), so the background is reassigned only when two or more files are
selected. -/
theorem C10_select_background_single_file (bgs : List Image)
    (h : bgs.length ≤ 1) :
    (select_background bgs).assignsBackground = false
    ∧ (bgs.length = 1 → select_background bgs = .returnedZero)
    ∧ (bgs.length = 0 → select_background bgs = .indexError) := by
  have h1 : ¬1 < bgs.length := by omega
  by_cases h0 : bgs.length = 0
  · simp [select_background, h1, h0, SelectBackgroundResult.assignsBackground]
  · simp [select_background, h1, h0, SelectBackgroundResult.assignsBackground]

/-- C8: in every reachable display state a stored background has the
pixel count of frames from the current camera ROI; `update_roi` always
clears the background and disables subtraction, so after an ROI change
`update_display` passes frames through unchanged instead of subtracting
a stale background. -/
theorem C8_background_shape_invariant (r0 r : ROI) (s : DisplayState)
    (b frame : Image) (h : DisplayReach r0 s)
    (hb : s.background = some b) :
    b.length = frameShape s.roi
    ∧ (update_roi s r).background = none
    ∧ (update_roi s r).subtract_background = false
    ∧ update_display (update_roi s r).subtract_background
        (update_roi s r).background frame = (frame, frame) := by
  refine ⟨?_, rfl, rfl, rfl⟩
  induction h with
  | init => exact Option.noConfusion hb
  | setBG img hshape _ _ =>
      simp only [set_background, Option.some.injEq] at hb
      exact hb ▸ hshape
  | updateROI _ _ _ => exact Option.noConfusion hb
  | toggleSub _ ih => exact ih hb

/-- C8 witness: a 2x2 ROI with a four-pixel background captured under
it. -/
theorem C8_background_shape_invariant_witness :
    DisplayReach ⟨2, 2, 0, 0⟩
      (set_background ⟨⟨2, 2, 0, 0⟩, none, false⟩ [0, 0, 0, 0])
    ∧ (set_background ⟨⟨2, 2, 0, 0⟩, none, false⟩ [0, 0, 0, 0]).background
        = some [0, 0, 0, 0]
    ∧ (([0, 0, 0, 0] : Image).length
        = frameShape (set_background ⟨⟨2, 2, 0, 0⟩, none, false⟩ [0, 0, 0, 0]).roi
      ∧ (update_roi (set_background ⟨⟨2, 2, 0, 0⟩, none, false⟩ [0, 0, 0, 0])
          ⟨1, 1, 0, 0⟩).background = none
      ∧ (update_roi (set_background ⟨⟨2, 2, 0, 0⟩, none, false⟩ [0, 0, 0, 0])
          ⟨1, 1, 0, 0⟩).subtract_background = false
      ∧ update_display
          (update_roi (set_background ⟨⟨2, 2, 0, 0⟩, none, false⟩ [0, 0, 0, 0])
            ⟨1, 1, 0, 0⟩).subtract_background
          (update_roi (set_background ⟨⟨2, 2, 0, 0⟩, none, false⟩ [0, 0, 0, 0])
            ⟨1, 1, 0, 0⟩).background [7] = ([7], [7])) := by
  have hreach : DisplayReach ⟨2, 2, 0, 0⟩
      (set_background ⟨⟨2, 2, 0, 0⟩, none, false⟩ [0, 0, 0, 0]) :=
    DisplayReach.setBG [0, 0, 0, 0] (by decide) DisplayReach.init
  exact ⟨hreach, rfl,
    C8_background_shape_invariant ⟨2, 2, 0, 0⟩ ⟨1, 1, 0, 0⟩ _ [0, 0, 0, 0] [7]
      hreach rfl⟩

/-- C10 witness: a single selected background image. -/
theorem C10_select_background_single_file_witness :
    ([[5]] : List Image).length ≤ 1
    ∧ ((select_background [[5]]).assignsBackground = false
      ∧ (([[5]] : List Image).length = 1
          → select_background [[5]] = .returnedZero)
      ∧ (([[5]] : List Image).length = 0
          → select_background [[5]] = .indexError)) :=
  ⟨by decide, C10_select_background_single_file [[5]] (by decide)⟩

/-- C2 counterexample: with the two one-pixel backgrounds `[0]` and
`[1]`, `select_background` stores the pixel value `0`, while the exact
elementwise weighted average under `difference_weighted_average` is
`1/2`; the stored background is the truncation of the average, not the
average itself. -/
theorem C2_exact_average_refuted :
    select_background [[0], [1]] = .assigned [0]
    ∧ np_average [[0], [1]] (difference_weighted_average [[0], [1]]) = [1 / 2]
    ∧ imageToRat [0]
        ≠ np_average [[0], [1]] (difference_weighted_average [[0], [1]]) := by
  refine ⟨?_, ?_, ?_⟩
  · norm_num [select_background, astype_trunc, np_average, columnDot,
      columnWeightSum, difference_weighted_average, dwaInner, dwaPairUpdate,
      pairWeight, int16ofInt, listAdd, zerosLike, Function.update,
      List.range_succ]
  · norm_num [np_average, columnDot, columnWeightSum,
      difference_weighted_average, dwaInner, dwaPairUpdate, pairWeight,
      int16ofInt, listAdd, zerosLike, Function.update, List.range_succ]
  · norm_num [imageToRat, np_average, columnDot, columnWeightSum,
      difference_weighted_average, dwaInner, dwaPairUpdate, pairWeight,
      int16ofInt, listAdd, zerosLike, Function.update, List.range_succ]

/-- C2 (amended): for a list of `n >= 2` background images,
`difference_weighted_average` returns one weight array per image; the
weight array of image `k` is the elementwise sum, over every other image
`j`, of `0.01 + 1` (where the `int16` absolute difference is below 10)
`+ 0.5` (where it is below 20); the pair weight is symmetric, so each
unordered pair contributes the same array to both of its images; and
`select_background` stores the elementwise weighted average of the
images under these weights, truncated to the images' integer dtype. -/
theorem C2_difference_weighted_average_amended (bgs : List Image)
    (a b : Image) (k : Nat) (h2 : 2 ≤ bgs.length) (hk : k < bgs.length) :
    (difference_weighted_average bgs).length = bgs.length
    ∧ (difference_weighted_average bgs).getD k [] = rowWeightSpec bgs k
    ∧ pairWeight a b = pairWeight b a
    ∧ select_background bgs
        = .assigned (astype_trunc (np_average bgs
            (difference_weighted_average bgs))) := by
  refine ⟨?_, dwa_row bgs k hk, pairWeight_comm a b, ?_⟩
  · simp [difference_weighted_average]
  · simp only [select_background]
    rw [if_pos (by omega)]

/-- C2 witness: two one-pixel backgrounds, first weight row. -/
theorem C2_difference_weighted_average_amended_witness :
    (2 ≤ ([[0], [1]] : List Image).length
      ∧ 0 < ([[0], [1]] : List Image).length)
    ∧ ((difference_weighted_average [[0], [1]]).length
          = ([[0], [1]] : List Image).length
      ∧ (difference_weighted_average [[0], [1]]).getD 0 []
          = rowWeightSpec [[0], [1]] 0
      ∧ pairWeight [2] [5] = pairWeight [5] [2]
      ∧ select_background [[0], [1]]
          = .assigned (astype_trunc (np_average [[0], [1]]
              (difference_weighted_average [[0], [1]])))) :=
  ⟨⟨by decide, by decide⟩,
    C2_difference_weighted_average_amended [[0], [1]] [2] [5] 0 (by decide)
      (by decide)⟩
